import Mathlib

/-!
Shallow embedding of the vehicle-listing text extraction engine
(src/utils/vehicleParser.ts).

Strings are modelled as `List Char` at the core (suffix `L` on helper
names); the exported functions keep the TypeScript names and operate on
`String`.  JavaScript regular-expression character classes are embedded
as explicit character predicates, and each `String.replace` call with a
global regex is embedded as a left-to-right scan over the original
character list, exactly as the JS engine matches.
-/

namespace VehicleParser

/-- JS regex class `\d`. -/
def isDigitJS (c : Char) : Bool :=
  decide (48 ≤ c.toNat) && decide (c.toNat ≤ 57)

/-- JS regex class `\w` : ASCII letters, digits and underscore. -/
def isWordJS (c : Char) : Bool :=
  isDigitJS c || (decide (65 ≤ c.toNat) && decide (c.toNat ≤ 90)) ||
    (decide (97 ≤ c.toNat) && decide (c.toNat ≤ 122)) || decide (c = '_')

/-- JS regex class `[A-Z]`. -/
def isUpperAZ (c : Char) : Bool :=
  decide (65 ≤ c.toNat) && decide (c.toNat ≤ 90)

/-- JS regex class `\s` (WhiteSpace plus LineTerminator), which is also
the set stripped by `String.prototype.trim`. -/
def isSpaceJS (c : Char) : Bool :=
  decide (c = ' ') || decide (c = '\t') || decide (c = '\n') || decide (c = '\r') ||
  decide (c.toNat = 11) || decide (c.toNat = 12) || decide (c.toNat = 0xa0) ||
  decide (c.toNat = 0x1680) || (decide (0x2000 ≤ c.toNat) && decide (c.toNat ≤ 0x200a)) ||
  decide (c.toNat = 0x2028) || decide (c.toNat = 0x2029) || decide (c.toNat = 0x202f) ||
  decide (c.toNat = 0x205f) || decide (c.toNat = 0x3000) || decide (c.toNat = 0xfeff)

/-- JS `String.prototype.trim` on a character list. -/
def trimJS (l : List Char) : List Char :=
  ((l.dropWhile isSpaceJS).reverse.dropWhile isSpaceJS).reverse

/-- The `Vehicle` record of vehicleParser.ts. -/
structure Vehicle where
  year : String
  make : String
  model : String
  fullText : String
deriving DecidableEq, Repr

/-- The fixed ordered make list `COMMON_MAKES` of vehicleParser.ts. -/
def COMMON_MAKES : List String :=
  ["CHEVROLET", "CHEVY", "FORD", "TOYOTA", "HONDA", "NISSAN", "GMC", "RAM",
   "JEEP", "DODGE", "HYUNDAI", "KIA", "MAZDA", "SUBARU", "VOLKSWAGEN", "VW",
   "BMW", "MERCEDES", "AUDI", "LEXUS", "ACURA", "INFINITI", "CADILLAC",
   "BUICK", "PONTIAC", "LINCOLN", "MERCURY", "CHRYSLER", "VOLVO", "MITSUBISHI"]

/-- JS `\b` assertion on the left of a word character: the previous
character (if any) is not a word character. -/
def wordBoundaryBefore : Option Char → Bool
  | none => true
  | some c => !isWordJS c

/-- JS `\b` assertion on the right of a word character: the next
character (if any) is not a word character. -/
def wordBoundaryAfter : List Char → Bool
  | [] => true
  | c :: _ => !isWordJS c

/-- Embedding of the replace call mapping each word-bounded occurrence
of `JOI` to `201`, as a left-to-right scan.  `prev` is the character
just before the current scan position in the original text. -/
def replJOI (prev : Option Char) : List Char → List Char
  | 'J' :: 'O' :: 'I' :: rest =>
      if wordBoundaryBefore prev && wordBoundaryAfter rest then
        '2' :: '0' :: '1' :: replJOI (some 'I') rest
      else
        'J' :: replJOI (some 'J') ('O' :: 'I' :: rest)
  | c :: rest => c :: replJOI (some c) rest
  | [] => []

/-- Single-character global replacement, used for `/§/g → 2` and
`/[|]/g → 1`. -/
def replChar (a b : Char) (s : List Char) : List Char :=
  s.map (fun c => if c = a then b else c)

/-- Embedding of the replace call mapping each standalone word `O` to
the digit zero. -/
def replStandaloneO (prev : Option Char) : List Char → List Char
  | [] => []
  | c :: rest =>
      if c = 'O' && wordBoundaryBefore prev && wordBoundaryAfter rest then
        '0' :: replStandaloneO (some c) rest
      else
        c :: replStandaloneO (some c) rest

/-- Embedding of `fixOCRErrors` of vehicleParser.ts: upper-case, then
the four fixed substitutions in source order. -/
def fixOCRErrorsL (text : List Char) : List Char :=
  replStandaloneO none (replChar '|' '1' (replChar '§' '2'
    (replJOI none (text.map Char.toUpper))))

def fixOCRErrors (text : String) : String :=
  (fixOCRErrorsL text.data).asString

/-- Embedding of `splitMakeModel` of vehicleParser.ts: if the upper-cased text starts
with a listed make and is strictly longer, insert a space after the
(listed, upper-case) make; the remainder is taken from the original
text. -/
def splitMakeModelL (text : List Char) : List Char :=
  let upperText := text.map Char.toUpper
  match COMMON_MAKES.find? (fun mk =>
      mk.data.isPrefixOf upperText && decide (mk.data.length < upperText.length)) with
  | some mk => mk.data ++ ' ' :: text.drop mk.data.length
  | none => text

def splitMakeModel (text : String) : String :=
  (splitMakeModelL text.data).asString

/-- Embedding of the replace call collapsing each maximal whitespace
run to one space.  `inRun` records whether the previous original
character was whitespace. -/
def collapseWsAux : Bool → List Char → List Char
  | _, [] => []
  | inRun, c :: rest =>
      if isSpaceJS c then
        if inRun then collapseWsAux true rest
        else ' ' :: collapseWsAux true rest
      else c :: collapseWsAux false rest

/-- Embedding, on one character, of the replace call that turns every
character outside `\w`, `\s` and hyphen into a space. -/
def stripSpecialChar (c : Char) : Char :=
  if isWordJS c || isSpaceJS c || c = '-' then c else ' '

/-- Embedding of `cleanText` of vehicleParser.ts. -/
def cleanTextL (text : List Char) : List Char :=
  trimJS ((collapseWsAux false text).map stripSpecialChar)

def cleanText (text : String) : String :=
  (cleanTextL text.data).asString

/-- The body of `/\b(19\d{2}|20\d{2})\b/` at the current position:
`19` or `20`, two digits, then a right word boundary. -/
def yearPat4 : List Char → Bool
  | a :: b :: c :: d :: rest =>
      ((decide (a = '1') && decide (b = '9')) || (decide (a = '2') && decide (b = '0'))) &&
      isDigitJS c && isDigitJS d && wordBoundaryAfter rest
  | _ => false

/-- Left `\b` of the 4-digit year regex at index `i` of `s`. -/
def boundaryBefore (s : List Char) (i : Nat) : Bool :=
  match i with
  | 0 => true
  | j + 1 =>
    match s.get? j with
    | some c => !isWordJS c
    | none => false

/-- The 4-digit year regex matches `s` starting at index `i`. -/
def fourAt (s : List Char) (i : Nat) : Bool :=
  boundaryBefore s i && yearPat4 (s.drop i)

/-- The lookahead `(?=[A-Z]|\s[A-Z])` of the 2-digit year regex. -/
def lookTwo : List Char → Bool
  | [] => false
  | c :: rest =>
      isUpperAZ c ||
      (isSpaceJS c && (match rest with | d :: _ => isUpperAZ d | [] => false))

/-- The body of `/[^\d](\d{2})(?=[A-Z]|\s[A-Z])/` at the current
position: one non-digit, two digits, then the lookahead. -/
def twoPat : List Char → Bool
  | b :: d1 :: d2 :: rest =>
      !isDigitJS b && isDigitJS d1 && isDigitJS d2 && lookTwo rest
  | _ => false

/-- The 2-digit year regex matches `s` starting at index `i` (index of
the consumed non-digit boundary character). -/
def twoAt (s : List Char) (i : Nat) : Bool :=
  twoPat (s.drop i)

/-- Leftmost index in `[start, start + fuel)` satisfying `p`, as the JS
regex engine searches match positions. -/
def findIdxFrom (p : Nat → Bool) : Nat → Nat → Option Nat
  | _, 0 => none
  | start, fuel + 1 =>
      if p start then some start else findIdxFrom p (start + 1) fuel

/-- Numeric value, via `parseInt`, of the two matched digit characters. -/
def twoDigitValue (d1 d2 : Char) : Nat :=
  (d1.toNat - 48) * 10 + (d2.toNat - 48)

/-- Embedding of `extractYear` of vehicleParser.ts.  The 4-digit rule is tried first;
on a 2-digit match at index `i`, `restOfText` is
`text.substring(i + 3 - 2).trim()`, i.e. it starts at the two digits. -/
def extractYearL (text : List Char) : Option (List Char × List Char) :=
  match findIdxFrom (fourAt text) 0 text.length with
  | some i => some ((text.drop i).take 4, trimJS (text.drop (i + 4)))
  | none =>
    match findIdxFrom (twoAt text) 0 text.length with
    | some i =>
      match text.drop i with
      | _ :: d1 :: d2 :: _ =>
        let fullYear : List Char :=
          if twoDigitValue d1 d2 ≤ 30 then ['2', '0', d1, d2] else ['1', '9', d1, d2]
        some (fullYear, trimJS (text.drop (i + 1)))
      | _ => none  -- unreachable: a 2-digit match needs three characters at i
    | none => none

def extractYear (text : String) : Option (String × String) :=
  (extractYearL text.data).map (fun r => (r.1.asString, r.2.asString))

/-- Split a character list at every character satisfying `p`, keeping
empty segments (JS `split` with a single-character class). -/
def splitOnPred (p : Char → Bool) : List Char → List (List Char)
  | [] => [[]]
  | c :: rest =>
      if p c then [] :: splitOnPred p rest
      else
        match splitOnPred p rest with
        | [] => [[c]]  -- unreachable: splitOnPred never returns []
        | l :: ls => (c :: l) :: ls

def isNewlineJS (c : Char) : Bool :=
  decide (c = '\n') || decide (c = '\r')

/-- Embedding of the newline split followed by the non-blank filter of
`parseVehicles`.  Splitting on every newline character differs from
splitting on maximal newline runs only by empty segments, which the
adjacent filter removes. -/
def segmentLines (text : List Char) : List (List Char) :=
  (splitOnPred isNewlineJS text).filter (fun line => decide ((trimJS line).length > 0))

/-- Embedding of the includes test: `pat` occurs contiguously in `s`. -/
def containsSub (s pat : List Char) : Bool :=
  (List.range (s.length + 1)).any (fun i => pat.isPrefixOf (s.drop i))

/-- The skip condition of the `parseVehicles` loop, applied to the
trimmed line. -/
def isNoiseLine (t : List Char) : Bool :=
  decide (t.length < 5) || containsSub t "YARD".data || containsSub t "ROW".data ||
  containsSub t "LOCAT".data || containsSub t "Vehicle".data

/-- Embedding of the slice-and-join building the model string: the
words joined by single spaces. -/
def joinWithSpace : List (List Char) → List Char
  | [] => []
  | [w] => w
  | w :: ws => w ++ ' ' :: joinWithSpace ws

/-- The record-building tail of the `parseVehicles` loop body, from the
non-empty word list of the cleaned post-year text. -/
def mkVehicleFromWords (year : List Char) (words : List (List Char)) : Option Vehicle :=
  match words with
  | [] => none
  | [make] =>
      some ⟨year.asString, make.asString, "", (year ++ ' ' :: make).asString⟩
  | make :: rest =>
      let model := joinWithSpace rest
      some ⟨year.asString, make.asString, model.asString,
            (year ++ ' ' :: make ++ ' ' :: model).asString⟩

/-- One iteration of the `parseVehicles` loop: `some v` when the line
pushes a record `v`, `none` when the loop continues without pushing. -/
def processLine (line : List Char) : Option Vehicle :=
  let trimmedLine := trimJS line
  if isNoiseLine trimmedLine then none
  else
    match extractYearL trimmedLine with
    | some (year, restOfText) =>
      let vehicleText := cleanTextL (splitMakeModelL restOfText)
      let words := (splitOnPred isSpaceJS vehicleText).filter (fun w => decide (w.length > 0))
      mkVehicleFromWords year words
    | none =>
      let cleanedLine := cleanTextL trimmedLine
      if cleanedLine.length > 0 then
        some ⟨"", "", "", cleanedLine.asString⟩
      else none

/-- Embedding of `parseVehicles` of vehicleParser.ts. -/
def parseVehicles (text : String) : List Vehicle :=
  (segmentLines (fixOCRErrorsL text.data)).filterMap processLine

/-- Embedding of `formatVehicleList` of vehicleParser.ts. -/
def formatVehicleList (vehicles : List Vehicle) : String :=
  String.intercalate "\n" (vehicles.map (fun v => v.fullText))

/-! ### Variant without the mixed-case noise marker

For the refinement claim about the dead mixed-case Vehicle marker test,
a second pipeline is defined that is identical except that the skip
condition omits that test. -/

/-- The skip condition with the mixed-case Vehicle marker test removed. -/
def isNoiseLineNoVehicleCheck (t : List Char) : Bool :=
  decide (t.length < 5) || containsSub t "YARD".data || containsSub t "ROW".data ||
  containsSub t "LOCAT".data

/-- Variant of `processLine` with the mixed-case Vehicle marker test
removed from the skip condition; otherwise identical. -/
def processLineNoVehicleCheck (line : List Char) : Option Vehicle :=
  let trimmedLine := trimJS line
  if isNoiseLineNoVehicleCheck trimmedLine then none
  else
    match extractYearL trimmedLine with
    | some (year, restOfText) =>
      let vehicleText := cleanTextL (splitMakeModelL restOfText)
      let words := (splitOnPred isSpaceJS vehicleText).filter (fun w => decide (w.length > 0))
      mkVehicleFromWords year words
    | none =>
      let cleanedLine := cleanTextL trimmedLine
      if cleanedLine.length > 0 then
        some ⟨"", "", "", cleanedLine.asString⟩
      else none

/-- Variant of `parseVehicles` built on the variant line processor. -/
def parseVehiclesNoVehicleCheck (text : String) : List Vehicle :=
  (segmentLines (fixOCRErrorsL text.data)).filterMap processLineNoVehicleCheck

/-! ### Spec-side predicates used in claim statements -/

/-- A listed make name splits `t`: the upper-cased text starts with the
make and is strictly longer than it. -/
def splitsAsMake (mk : String) (t : List Char) : Prop :=
  mk.data.isPrefixOf (t.map Char.toUpper) = true ∧ mk.data.length < t.length

/-- A year string is empty or has the shape `19dd` or `20dd` with digit
characters `d`, i.e. it is a 4-character numeral between 1900 and 2099. -/
def yearShaped (y : String) : Prop :=
  y = "" ∨ ∃ d1 d2, isDigitJS d1 = true ∧ isDigitJS d2 = true ∧
    (y.data = ['1', '9', d1, d2] ∨ y.data = ['2', '0', d1, d2])

/-! ### Helper lemmas -/

theorem findIdxFrom_eq_some (p : Nat → Bool) :
    ∀ (fuel start i : Nat), start ≤ i → i < start + fuel → p i = true →
      (∀ j, start ≤ j → j < i → p j = false) →
      findIdxFrom p start fuel = some i := by
  intro fuel
  induction fuel with
  | zero => intro start i h1 h2 _ _; omega
  | succ n ih =>
    intro start i hle hlt hp hmin
    by_cases hs : i = start
    · subst hs
      simp [findIdxFrom, hp]
    · have h1 : start < i := lt_of_le_of_ne hle (fun h => hs h.symm)
      have hps : p start = false := hmin start le_rfl h1
      simp [findIdxFrom, hps]
      exact ih (start + 1) i h1 (by omega) hp (fun j hj1 hj2 => hmin j (by omega) hj2)

theorem findIdxFrom_eq_none (p : Nat → Bool) :
    ∀ (fuel start : Nat), (∀ j, start ≤ j → j < start + fuel → p j = false) →
      findIdxFrom p start fuel = none := by
  intro fuel
  induction fuel with
  | zero => intro start _; rfl
  | succ n ih =>
    intro start h
    have h0 : p start = false := h start le_rfl (by omega)
    simp [findIdxFrom, h0]
    exact ih (start + 1) (fun j h1 h2 => h j (by omega) (by omega))

theorem findIdxFrom_some_pred (p : Nat → Bool) :
    ∀ (fuel start i : Nat), findIdxFrom p start fuel = some i → p i = true := by
  intro fuel
  induction fuel with
  | zero => intro start i h; cases h
  | succ n ih =>
    intro start i h
    by_cases hs : p start = true
    · simp [findIdxFrom, hs] at h
      subst h; exact hs
    · rw [Bool.not_eq_true] at hs
      simp [findIdxFrom, hs] at h
      exact ih (start + 1) i h

theorem length_le_of_yearPat4 {l : List Char} (h : yearPat4 l = true) :
    4 ≤ l.length := by
  match l with
  | a :: b :: c :: d :: rest => simp only [List.length_cons]; omega
  | [] => simp [yearPat4] at h
  | [a] => simp [yearPat4] at h
  | [a, b] => simp [yearPat4] at h
  | [a, b, c] => simp [yearPat4] at h

theorem length_le_of_twoPat {l : List Char} (h : twoPat l = true) :
    3 ≤ l.length := by
  match l with
  | a :: b :: c :: rest => simp only [List.length_cons]; omega
  | [] => simp [twoPat] at h
  | [a] => simp [twoPat] at h
  | [a, b] => simp [twoPat] at h

theorem data_asString (l : List Char) : (l.asString).data = l := rfl

theorem asString_eq_empty_iff (l : List Char) : l.asString = "" ↔ l = [] := by
  constructor
  · intro h
    exact congrArg String.data h
  · intro h
    subst h
    rfl

theorem toUpper_ne_e (c : Char) : Char.toUpper c ≠ 'e' := by
  intro h
  simp only [Char.toUpper] at h
  split at h
  · rename_i hcond
    obtain ⟨h1, h2⟩ := hcond
    set n := c.toNat with hn
    interval_cases n <;> exact absurd h (by decide)
  · rename_i hcond
    subst h
    exact hcond (by decide)

theorem mem_replJOI {c : Char} :
    ∀ (prev : Option Char) (t : List Char), c ∈ replJOI prev t →
      c ∈ t ∨ c = '2' ∨ c = '0' ∨ c = '1' := by
  intro prev t
  induction prev, t using replJOI.induct with
  | case1 prev rest hcond ih =>
    intro h
    rw [replJOI.eq_1, if_pos hcond] at h
    simp only [List.mem_cons] at h
    rcases h with h | h | h | h
    · exact Or.inr (Or.inl h)
    · exact Or.inr (Or.inr (Or.inl h))
    · exact Or.inr (Or.inr (Or.inr h))
    · rcases ih h with h2 | h2
      · exact Or.inl (by simp [h2])
      · exact Or.inr h2
  | case2 prev rest hcond ih =>
    intro h
    rw [replJOI.eq_1, if_neg hcond] at h
    simp only [List.mem_cons] at h
    rcases h with h | h
    · exact Or.inl (by simp [h])
    · rcases ih h with h2 | h2
      · exact Or.inl (List.mem_cons_of_mem 'J' h2)
      · exact Or.inr h2
  | case3 prev d rest hne ih =>
    intro h
    rw [replJOI.eq_2 prev d rest hne] at h
    rcases List.mem_cons.mp h with h | h
    · exact Or.inl (by simp [h])
    · rcases ih h with h2 | h2
      · exact Or.inl (List.mem_cons_of_mem d h2)
      · exact Or.inr h2
  | case4 prev =>
    intro h
    cases h

theorem mem_replChar_of_ne {a b c : Char} {s : List Char} (hcb : c ≠ b)
    (h : c ∈ replChar a b s) : c ∈ s := by
  unfold replChar at h
  rcases List.mem_map.mp h with ⟨d, hd, hdc⟩
  by_cases hda : d = a
  · rw [if_pos hda] at hdc
    exact absurd hdc.symm hcb
  · rw [if_neg hda] at hdc
    exact hdc ▸ hd

theorem mem_replStandaloneO {c : Char} :
    ∀ (t : List Char) (prev : Option Char), c ∈ replStandaloneO prev t →
      c ∈ t ∨ c = '0' := by
  intro t
  induction t with
  | nil => intro prev h; cases h
  | cons d rest ih =>
    intro prev h
    rw [replStandaloneO] at h
    split at h
    · rcases List.mem_cons.mp h with h | h
      · exact Or.inr h
      · rcases ih (some d) h with h2 | h2
        · exact Or.inl (List.mem_cons_of_mem d h2)
        · exact Or.inr h2
    · rcases List.mem_cons.mp h with h | h
      · exact Or.inl (by simp [h])
      · rcases ih (some d) h with h2 | h2
        · exact Or.inl (List.mem_cons_of_mem d h2)
        · exact Or.inr h2

theorem fixOCR_no_e (t : List Char) : 'e' ∉ fixOCRErrorsL t := by
  intro h
  unfold fixOCRErrorsL at h
  rcases mem_replStandaloneO _ _ h with h | h
  case inr => exact absurd h (by decide)
  have h2 : 'e' ∈ replChar '§' '2' (replJOI none (t.map Char.toUpper)) :=
    mem_replChar_of_ne (by decide) h
  have h3 : 'e' ∈ replJOI none (t.map Char.toUpper) :=
    mem_replChar_of_ne (by decide) h2
  rcases mem_replJOI none _ h3 with h4 | h4
  · rcases List.mem_map.mp h4 with ⟨d, _, hd⟩
    exact toUpper_ne_e d hd
  · rcases h4 with h4 | h4 | h4 <;> exact absurd h4 (by decide)

theorem mem_of_mem_splitOnPred (p : Char → Bool) :
    ∀ (t l : List Char), l ∈ splitOnPred p t → ∀ c ∈ l, c ∈ t := by
  intro t
  induction t with
  | nil =>
    intro l hl c hc
    simp [splitOnPred] at hl
    subst hl
    cases hc
  | cons x rest ih =>
    intro l hl c hc
    rw [splitOnPred] at hl
    split at hl
    · rcases List.mem_cons.mp hl with h | h
      · subst h; cases hc
      · exact List.mem_cons_of_mem x (ih l h c hc)
    · rcases hsp : splitOnPred p rest with _ | ⟨l0, ls⟩
      · rw [hsp] at hl
        simp at hl
        subst hl
        simp at hc
        simp [hc]
      · rw [hsp] at hl
        rcases List.mem_cons.mp hl with h | h
        · subst h
          rcases List.mem_cons.mp hc with h2 | h2
          · simp [h2]
          · exact List.mem_cons_of_mem x (ih l0 (hsp ▸ List.mem_cons_self l0 ls) c h2)
        · exact List.mem_cons_of_mem x
            (ih l (hsp ▸ List.mem_cons_of_mem l0 h) c hc)

theorem mem_of_mem_dropWhile {c : Char} (p : Char → Bool) :
    ∀ (l : List Char), c ∈ l.dropWhile p → c ∈ l := by
  intro l
  exact fun h => (List.dropWhile_sublist p).subset h

theorem mem_of_mem_trimJS {c : Char} {l : List Char} (h : c ∈ trimJS l) : c ∈ l := by
  unfold trimJS at h
  rw [List.mem_reverse] at h
  have h2 := mem_of_mem_dropWhile _ _ h
  rw [List.mem_reverse] at h2
  exact mem_of_mem_dropWhile _ _ h2

theorem mem_of_containsSub {s pat : List Char} (h : containsSub s pat = true) :
    ∀ c ∈ pat, c ∈ s := by
  unfold containsSub at h
  rw [List.any_eq_true] at h
  obtain ⟨i, _, hpre⟩ := h
  rw [List.isPrefixOf_iff_prefix] at hpre
  intro c hc
  exact List.drop_subset i s (hpre.subset hc)

theorem containsSub_Vehicle_eq_false {t : List Char} (h : 'e' ∉ t) :
    containsSub t "Vehicle".data = false := by
  by_contra hc
  rw [Bool.not_eq_false] at hc
  exact h (mem_of_containsSub hc 'e' (by decide))

theorem processLine_eq_of_no_e (line : List Char) (h : 'e' ∉ line) :
    processLine line = processLineNoVehicleCheck line := by
  have htrim : 'e' ∉ trimJS line := fun hm => h (mem_of_mem_trimJS hm)
  have hveh : containsSub (trimJS line) "Vehicle".data = false :=
    containsSub_Vehicle_eq_false htrim
  simp only [processLine, processLineNoVehicleCheck, isNoiseLine,
    isNoiseLineNoVehicleCheck, hveh, Bool.or_false]

theorem processLine_some_fullText_ne (line : List Char) (v : Vehicle)
    (h : processLine line = some v) : v.fullText ≠ "" := by
  simp only [processLine] at h
  split at h
  · cases h
  · split at h
    case _ year restOfText heq =>
      simp only [mkVehicleFromWords] at h
      split at h
      · cases h
      · cases h
        intro he
        rw [asString_eq_empty_iff] at he
        simp at he
      · cases h
        intro he
        rw [asString_eq_empty_iff] at he
        simp at he
    case _ =>
      split at h
      · cases h
        rename_i hlen
        intro he
        rw [asString_eq_empty_iff] at he
        rw [he] at hlen
        simp at hlen
      · cases h

theorem extractYearL_some_year_shape (t y r : List Char)
    (h : extractYearL t = some (y, r)) :
    ∃ d1 d2, isDigitJS d1 = true ∧ isDigitJS d2 = true ∧
      (y = ['1', '9', d1, d2] ∨ y = ['2', '0', d1, d2]) := by
  simp only [extractYearL] at h
  split at h
  case _ i hfind =>
    have hp : fourAt t i = true := findIdxFrom_some_pred _ _ _ _ hfind
    have hy4 : yearPat4 (t.drop i) = true := by
      simp only [fourAt, Bool.and_eq_true] at hp
      exact hp.2
    match hdrop : t.drop i with
    | [] => rw [hdrop] at hy4; simp [yearPat4] at hy4
    | [a] => rw [hdrop] at hy4; simp [yearPat4] at hy4
    | [a, b] => rw [hdrop] at hy4; simp [yearPat4] at hy4
    | [a, b, c] => rw [hdrop] at hy4; simp [yearPat4] at hy4
    | a :: b :: c :: d :: rest =>
      rw [hdrop] at hy4 h
      simp only [yearPat4, Bool.and_eq_true, Bool.or_eq_true,
        decide_eq_true_eq] at hy4
      obtain ⟨⟨⟨h12, hc⟩, hd⟩, _⟩ := hy4
      have htake : (a :: b :: c :: d :: rest).take 4 = [a, b, c, d] := rfl
      rw [htake] at h
      simp only [Option.some.injEq, Prod.mk.injEq] at h
      obtain ⟨hy, _⟩ := h
      subst hy
      rcases h12 with ⟨ha, hb⟩ | ⟨ha, hb⟩
      · subst ha; subst hb
        exact ⟨c, d, hc, hd, Or.inl rfl⟩
      · subst ha; subst hb
        exact ⟨c, d, hc, hd, Or.inr rfl⟩
  case _ =>
    split at h
    case _ i hfind2 =>
      have hp : twoAt t i = true := findIdxFrom_some_pred _ _ _ _ hfind2
      unfold twoAt at hp
      split at h
      case _ b d1 d2 rest2 hdrop =>
        rw [hdrop] at hp
        simp only [twoPat, Bool.and_eq_true] at hp
        obtain ⟨⟨⟨_, hd1⟩, hd2⟩, _⟩ := hp
        refine ⟨d1, d2, hd1, hd2, ?_⟩
        by_cases hle : twoDigitValue d1 d2 ≤ 30
        · rw [if_pos hle] at h
          simp only [Option.some.injEq, Prod.mk.injEq] at h
          exact Or.inr h.1.symm
        · rw [if_neg hle] at h
          simp only [Option.some.injEq, Prod.mk.injEq] at h
          exact Or.inl h.1.symm
      case _ => cases h
    case _ => cases h

theorem processLine_some_year_shape (line : List Char) (v : Vehicle)
    (h : processLine line = some v) : yearShaped v.year := by
  simp only [processLine] at h
  split at h
  · cases h
  · split at h
    case _ year restOfText heq =>
      obtain ⟨d1, d2, hd1, hd2, hsh⟩ := extractYearL_some_year_shape _ _ _ heq
      simp only [mkVehicleFromWords] at h
      split at h
      · cases h
      · cases h
        right
        exact ⟨d1, d2, hd1, hd2,
          by rcases hsh with h2 | h2 <;> rw [h2] <;> simp [data_asString]⟩
      · cases h
        right
        exact ⟨d1, d2, hd1, hd2,
          by rcases hsh with h2 | h2 <;> rw [h2] <;> simp [data_asString]⟩
    case _ =>
      split at h
      · cases h
        left
        rfl
      · cases h

theorem find?_eq_some_of_first {α : Type} (p : α → Bool) :
    ∀ (l : List α) (k : Nat) (a : α), l.get? k = some a → p a = true →
      (∀ j b, j < k → l.get? j = some b → p b = false) →
      l.find? p = some a := by
  intro l
  induction l with
  | nil => intro k a h _ _; cases h
  | cons x xs ih =>
    intro k a hget hp hmin
    cases k with
    | zero =>
      simp only [List.get?] at hget
      cases hget
      simp [List.find?, hp]
    | succ k =>
      have hx : p x = false := hmin 0 x (Nat.succ_pos k) rfl
      simp only [List.find?, hx]
      exact ih k a hget hp (fun j b hj hg => hmin (j + 1) b (by omega) hg)

/-! ### Claims -/

/-- Claim C1 (amended): on the input
`"2015 CHEVROLETIMPALA\nYARD ROW 3\n99 FORD F150"`, `parseVehicles`
returns exactly two records: the parsed 2015 CHEVROLET IMPALA record,
and for the `99 FORD F150` line a fallback record with empty year, make
and model (the leading two-digit `99` has no preceding non-digit
character, so the 2-digit rule does not fire); the `YARD ROW 3` line
produces no record. -/
theorem claim_C1 :
    parseVehicles "2015 CHEVROLETIMPALA\nYARD ROW 3\n99 FORD F150" =
      [⟨"2015", "CHEVROLET", "IMPALA", "2015 CHEVROLET IMPALA"⟩,
       ⟨"", "", "", "99 FORD F150"⟩] := by
  decide

/-- Claim C1 as stated is false: the second record is not
`{year 1999, make FORD, model F150}`. -/
theorem claim_C1_cex :
    parseVehicles "2015 CHEVROLETIMPALA\nYARD ROW 3\n99 FORD F150" ≠
      [⟨"2015", "CHEVROLET", "IMPALA", "2015 CHEVROLET IMPALA"⟩,
       ⟨"1999", "FORD", "F150", "1999 FORD F150"⟩] := by
  decide

/-- Claim C2 (amended): when the 2-digit rule fires (the 4-digit rule
matches nowhere, and `i` is the first match index of the 2-digit
pattern, with non-digit boundary character `b` followed by digits
`d1 d2`), the returned `restOfText` is the text starting at the 2-digit
token, trimmed: the triggering boundary character is excluded from the
remainder, but the two matched digits themselves are included. -/
theorem claim_C2 (s : String) (i : Nat) (b d1 d2 : Char) (rest : List Char)
    (h4 : ∀ j, j < s.data.length → fourAt s.data j = false)
    (hdrop : s.data.drop i = b :: d1 :: d2 :: rest)
    (h2 : twoAt s.data i = true)
    (hmin : ∀ j, j < i → twoAt s.data j = false) :
    extractYear s = some
      ((if twoDigitValue d1 d2 ≤ 30 then ['2', '0', d1, d2]
        else ['1', '9', d1, d2]).asString,
       (trimJS (d1 :: d2 :: rest)).asString) := by
  have hfour : findIdxFrom (fourAt s.data) 0 s.data.length = none :=
    findIdxFrom_eq_none _ _ _ (fun j _ hj => h4 j (by omega))
  have h3 : 3 ≤ (s.data.drop i).length := by
    rw [hdrop]
    simp only [List.length_cons]
    omega
  rw [List.length_drop] at h3
  have htwo : findIdxFrom (twoAt s.data) 0 s.data.length = some i :=
    findIdxFrom_eq_some _ _ 0 i (Nat.zero_le i) (by omega) h2
      (fun j _ hj => hmin j hj)
  have hdrop1 : s.data.drop (i + 1) = d1 :: d2 :: rest := by
    rw [← List.drop_drop 1 i, hdrop]
    rfl
  unfold extractYear
  simp only [extractYearL, hfour, htwo, hdrop, hdrop1, Option.map_some']

/-- Claim C2 as stated is false: on `". 05CHEVROLET"` the 2-digit rule
fires with year 2005, but `restOfText` is `"05CHEVROLET"` — the two
matched digits are not excluded — rather than `"CHEVROLET"`. -/
theorem claim_C2_cex :
    extractYear ". 05CHEVROLET" = some ("2005", "05CHEVROLET") ∧
    extractYear ". 05CHEVROLET" ≠ some ("2005", "CHEVROLET") := by
  constructor
  · decide
  · decide

theorem claim_C2_witness :
    extractYear ". 05CHEVROLET" = some ("2005", "05CHEVROLET") := by
  have h := claim_C2 ". 05CHEVROLET" 1 ' ' '0' '5' "CHEVROLET".data
    (by decide) (by decide) (by decide) (by decide)
  exact h.trans (by decide)

/-- Claim C3: the mixed-case noise marker `"Vehicle"` can never match
after normalization (the text has been upper-cased and no substitution
reintroduces lower-case letters), so `parseVehicles` agrees with the
variant whose skip condition omits that test, on every input string. -/
theorem claim_C3 (s : String) : parseVehicles s = parseVehiclesNoVehicleCheck s := by
  unfold parseVehicles parseVehiclesNoVehicleCheck
  apply List.filterMap_congr
  intro line hline
  apply processLine_eq_of_no_e
  intro he
  simp only [segmentLines] at hline
  have h1 : line ∈ splitOnPred isNewlineJS (fixOCRErrorsL s.data) :=
    List.mem_of_mem_filter hline
  exact fixOCR_no_e s.data (mem_of_mem_splitOnPred _ _ _ h1 'e' he)

theorem claim_C3_witness :
    parseVehicles "2015 CHEVROLETIMPALA" =
      parseVehiclesNoVehicleCheck "2015 CHEVROLETIMPALA" :=
  claim_C3 "2015 CHEVROLETIMPALA"

/-- Claim C4: every record emitted by `parseVehicles` has a non-empty
`fullText`; lines that are empty after cleaning are dropped rather than
emitted as blank records. -/
theorem claim_C4 (s : String) : ∀ v ∈ parseVehicles s, v.fullText ≠ "" := by
  intro v hv
  unfold parseVehicles at hv
  rcases List.mem_filterMap.mp hv with ⟨line, _, hproc⟩
  exact processLine_some_fullText_ne line v hproc

theorem claim_C4_witness :
    (⟨"2015", "CHEVROLET", "IMPALA", "2015 CHEVROLET IMPALA"⟩ : Vehicle).fullText ≠ "" :=
  claim_C4 "2015 CHEVROLETIMPALA"
    ⟨"2015", "CHEVROLET", "IMPALA", "2015 CHEVROLET IMPALA"⟩ (by decide)

/-- Claim C5: if the 4-digit year pattern `19xx`/`20xx` with word
boundaries matches at index `i` of the line and at no earlier index,
then `extractYear` returns that 4-digit token as `year` and everything
after the match, trimmed, as `restOfText`; this rule has precedence
over the 2-digit rule. -/
theorem claim_C5 (s : String) (i : Nat)
    (hp : fourAt s.data i = true)
    (hmin : ∀ j, j < i → fourAt s.data j = false) :
    extractYear s = some (((s.data.drop i).take 4).asString,
      (trimJS (s.data.drop (i + 4))).asString) := by
  have hy4 : yearPat4 (s.data.drop i) = true := by
    have hp2 := hp
    simp only [fourAt, Bool.and_eq_true] at hp2
    exact hp2.2
  have hlen4 : 4 ≤ (s.data.drop i).length := length_le_of_yearPat4 hy4
  rw [List.length_drop] at hlen4
  have hfind : findIdxFrom (fourAt s.data) 0 s.data.length = some i :=
    findIdxFrom_eq_some _ _ 0 i (Nat.zero_le i) (by omega) hp
      (fun j _ hj => hmin j hj)
  unfold extractYear
  simp only [extractYearL, hfind, Option.map_some']

theorem claim_C5_witness :
    extractYear "2015 CHEVROLET IMPALA" = some ("2015", "CHEVROLET IMPALA") := by
  have h := claim_C5 "2015 CHEVROLET IMPALA" 0 (by decide)
    (fun j hj => absurd hj (Nat.not_lt_zero j))
  exact h.trans (by decide)

/-- Claim C6: if some listed make is a strict proper prefix of the
upper-cased text, `splitMakeModel` returns the text with a single space
inserted after the first such listed make (the make portion rendered
from the list entry, the remainder taken from the input text);
otherwise the input is returned unchanged; and
`splitMakeModel "CHEVROLETIMPALA" = "CHEVROLET IMPALA"`. -/
theorem claim_C6 :
    (∀ (t : List Char) (k : Nat) (mk : String),
       COMMON_MAKES.get? k = some mk → splitsAsMake mk t →
       (∀ j mk2, j < k → COMMON_MAKES.get? j = some mk2 → ¬ splitsAsMake mk2 t) →
       splitMakeModelL t = mk.data ++ ' ' :: t.drop mk.data.length) ∧
    (∀ t : List Char, (∀ mk ∈ COMMON_MAKES, ¬ splitsAsMake mk t) →
       splitMakeModelL t = t) ∧
    splitMakeModel "CHEVROLETIMPALA" = "CHEVROLET IMPALA" := by
  refine ⟨?_, ?_, by decide⟩
  · intro t k mk hget hmk hmin
    have hfind : COMMON_MAKES.find?
        (fun mk => mk.data.isPrefixOf (t.map Char.toUpper) &&
          decide (mk.data.length < (t.map Char.toUpper).length)) = some mk := by
      apply find?_eq_some_of_first _ _ k _ hget
      · obtain ⟨h1, h2⟩ := hmk
        simp only [Bool.and_eq_true, decide_eq_true_eq, List.length_map]
        exact ⟨h1, h2⟩
      · intro j b hj hg
        have hnb := hmin j b hj hg
        rw [Bool.eq_false_iff]
        intro hb
        apply hnb
        simp only [Bool.and_eq_true, decide_eq_true_eq, List.length_map] at hb
        exact ⟨hb.1, hb.2⟩
    simp only [splitMakeModelL, hfind]
  · intro t hnone
    have hfind : COMMON_MAKES.find?
        (fun mk => mk.data.isPrefixOf (t.map Char.toUpper) &&
          decide (mk.data.length < (t.map Char.toUpper).length)) = none := by
      rw [List.find?_eq_none]
      intro mk hmk hb
      apply hnone mk hmk
      simp only [Bool.and_eq_true, decide_eq_true_eq, List.length_map] at hb
      exact ⟨hb.1, hb.2⟩
    simp only [splitMakeModelL, hfind]

theorem claim_C6_witness :
    splitMakeModelL "CHEVROLETIMPALA".data = "CHEVROLET IMPALA".data := by
  have h := claim_C6.1 "CHEVROLETIMPALA".data 0 "CHEVROLET" (by decide)
    (by exact ⟨by decide, by decide⟩)
    (fun j mk2 hj _ => absurd hj (Nat.not_lt_zero j))
  exact h.trans (by decide)

/-- Claim C7: a line whose trimmed text is shorter than 5 characters or
contains `YARD`, `ROW` or `LOCAT` as a substring contributes no record
(its loop iteration yields none); in particular the input `"Ford"`
never appears in the output. -/
theorem claim_C7 :
    (∀ line : List Char,
       ((trimJS line).length < 5 ∨ containsSub (trimJS line) "YARD".data = true ∨
        containsSub (trimJS line) "ROW".data = true ∨
        containsSub (trimJS line) "LOCAT".data = true) →
       processLine line = none) ∧
    parseVehicles "Ford" = [] := by
  refine ⟨?_, by decide⟩
  intro line h
  have hn : isNoiseLine (trimJS line) = true := by
    unfold isNoiseLine
    rcases h with h | h | h | h <;> simp [h]
  simp [processLine, hn]

theorem claim_C7_witness : processLine "Ford".data = none :=
  claim_C7.1 "Ford".data (Or.inl (by decide))

/-- Claim C8: when a surviving line yields a year but the remainder,
after make/model splitting and cleaning, tokenizes to zero words, the
line contributes no record (the year alone is silently dropped), and
`parseVehicles` is exactly the per-line map over the segmented lines, so
records of other lines are unaffected. -/
theorem claim_C8 :
    (∀ (line year rest : List Char),
       isNoiseLine (trimJS line) = false →
       extractYearL (trimJS line) = some (year, rest) →
       (splitOnPred isSpaceJS (cleanTextL (splitMakeModelL rest))).filter
         (fun w => decide (w.length > 0)) = [] →
       processLine line = none) ∧
    (∀ s : String, parseVehicles s =
       (segmentLines (fixOCRErrorsL s.data)).filterMap processLine) := by
  refine ⟨?_, fun s => rfl⟩
  intro line year rest h1 h2 h3
  simp only [processLine, h1, Bool.false_eq_true, if_false, h2, h3, mkVehicleFromWords]

theorem claim_C8_witness : processLine "2015 !!!".data = none :=
  claim_C8.1 "2015 !!!".data "2015".data "!!!".data (by decide) (by decide) (by decide)

/-- Claim C9: every record emitted by `parseVehicles` has a `year` that
is either empty or a 4-character numeral of shape `19dd`/`20dd`, i.e.
in the range 1900 to 2099 (4-digit matches are such by construction;
2-digit matches get prefix 20 for values 0 to 30 and 19 for 31 to
99). -/
theorem claim_C9 (s : String) : ∀ v ∈ parseVehicles s, yearShaped v.year := by
  intro v hv
  unfold parseVehicles at hv
  rcases List.mem_filterMap.mp hv with ⟨line, _, hproc⟩
  exact processLine_some_year_shape line v hproc

theorem claim_C9_witness : yearShaped "2015" :=
  claim_C9 "2015 CHEVROLETIMPALA"
    ⟨"2015", "CHEVROLET", "IMPALA", "2015 CHEVROLET IMPALA"⟩ (by decide)

/-- Claim C10: the 2-digit rule never matches a digit pair at the very
start of a line, because its pattern consumes a preceding non-digit
character; consequently `extractYear "99 FORD F150" = none` and that
line is emitted by `parseVehicles` as a fallback record with empty
year, make and model. -/
theorem claim_C10 :
    (∀ (d1 d2 : Char) (rest : List Char), isDigitJS d1 = true →
       twoAt (d1 :: d2 :: rest) 0 = false) ∧
    extractYear "99 FORD F150" = none ∧
    parseVehicles "99 FORD F150" = [⟨"", "", "", "99 FORD F150"⟩] := by
  refine ⟨?_, by decide, by decide⟩
  intro d1 d2 rest h
  cases rest with
  | nil => rfl
  | cons x r => simp [twoAt, twoPat, h]

theorem claim_C10_witness : twoAt ('9' :: '9' :: " FORD F150".data) 0 = false :=
  claim_C10.1 '9' '9' " FORD F150".data (by decide)

end VehicleParser
